import Mathlib

/-!
Shallow embedding of `src/server.js` (tutustore backend): per-category product
catalogs stored as JSON arrays, CRUD route handlers, and the two multer upload
pipelines.  Products are JSON objects, embedded as ordered association lists of
string keys and JSON values; JavaScript object-literal/spread semantics are
embedded by `Obj.set` / `Obj.spread`.
-/

namespace TutuStore

/-- A JSON value as stored in a catalog file or sent in a request body.
JavaScript numbers are embedded as integers: every number the service itself
writes into a reserved field is an integer id, and no claim exercises
fractional arithmetic (arbitrary client fields carry through untouched). -/
inductive JValue where
  | num (n : Int)
  | str (s : String)
  | bool (b : Bool)
  | null
  deriving DecidableEq, Repr

/-- A JavaScript object: an ordered association list of fields, as produced by
`JSON.parse` / object literals (keys unique in those cases, but the type does
not force it). -/
abbrev Obj := List (String × JValue)

/-- Property read `o[k]`: first entry with key `k` (objects built by JS never
hold duplicate keys, so first = only). `none` is JS `undefined`. -/
def Obj.get : Obj → String → Option JValue
  | [], _ => none
  | (k2, v) :: rest, k => if k2 = k then some v else Obj.get rest k

/-- Property write `o[k] = v` as performed by an object literal: an existing
key keeps its position and takes the new value, a new key is appended. -/
def Obj.set : Obj → String → JValue → Obj
  | [], k, v => [(k, v)]
  | (k2, v2) :: rest, k, v =>
      if k2 = k then (k, v) :: rest else (k2, v2) :: Obj.set rest k v

/-- JS object spread `{...o, ...b}`: the fields of `b` are assigned over `o`
in order. -/
def Obj.spread (o b : Obj) : Obj :=
  b.foldl (fun a kv => Obj.set a kv.1 kv.2) o

/-- Longest leading run of decimal digits of a character list. -/
def leadingDigits : List Char → List Char
  | [] => []
  | c :: cs => if c.isDigit then c :: leadingDigits cs else []

/-- Whether the first list is an initial segment of the second. -/
def leadsList : List Char → List Char → Bool
  | [], _ => true
  | _ :: _, [] => false
  | c :: cs, d :: ds => c == d && leadsList cs ds

/-- JS `s.startsWith(t)`, over the character lists (the core
`String.startsWith` is byte-level and does not reduce in proofs, so the
embedding uses this equivalent form). -/
def strStartsWith (s t : String) : Bool :=
  leadsList t.data s.data

/-- Digits to a natural number, most significant first. -/
def digitsToNat (ds : List Char) : Nat :=
  ds.foldl (fun a c => a * 10 + (c.toNat - 48)) 0

/-- A hexadecimal digit: `0-9`, `a-f` or `A-F`. -/
def isHexChar (c : Char) : Bool :=
  c.isDigit || ('a' ≤ c && c ≤ 'f') || ('A' ≤ c && c ≤ 'F')

/-- Longest leading run of hexadecimal digits of a character list. -/
def leadingHexDigits : List Char → List Char
  | [] => []
  | c :: cs => if isHexChar c then c :: leadingHexDigits cs else []

/-- Hexadecimal digits to a natural number, most significant first. -/
def hexDigitsToNat (ds : List Char) : Nat :=
  ds.foldl (fun a c =>
    a * 16 + (if c.isDigit then c.toNat - 48
      else if 'a' ≤ c && c ≤ 'f' then c.toNat - 87 else c.toNat - 55)) 0

/-- JS `parseInt(s)` with the radix argument omitted (ECMA-262): skip leading
whitespace and an optional sign; if the remainder starts with `0x` or `0X`,
parse the longest run of hexadecimal digits after that marker (radix 16),
otherwise parse the longest leading run of decimal digits; `none` embeds
`NaN` (no digit after the optional sign and radix marker, as in
`parseInt("0x")` or `parseInt("abc")`). -/
def parseIntJS (s : String) : Option Int :=
  let cs := s.data.dropWhile Char.isWhitespace
  let signAndRest : Bool × List Char :=
    match cs with
    | '-' :: cs2 => (true, cs2)
    | '+' :: cs2 => (false, cs2)
    | _ => (false, cs)
  let magnitude : Option Nat :=
    match signAndRest.2 with
    | '0' :: 'x' :: rest =>
        let ds := leadingHexDigits rest
        if ds.isEmpty then none else some (hexDigitsToNat ds)
    | '0' :: 'X' :: rest =>
        let ds := leadingHexDigits rest
        if ds.isEmpty then none else some (hexDigitsToNat ds)
    | rest =>
        let ds := leadingDigits rest
        if ds.isEmpty then none else some (digitsToNat ds)
  magnitude.map (fun n => if signAndRest.1 then -(n : Int) else (n : Int))

/-- The comparison `p.id === parseInt(id)` used by the get / update / delete
handlers: strict equality holds only between two numbers, and `NaN` (embedded
as `none`) equals nothing. -/
def idMatches (p : Obj) (s : String) : Bool :=
  match Obj.get p "id", parseIntJS s with
  | some (JValue.num n), some m => n == m
  | _, _ => false

/-- The stored id of a product when it is a number, as an integer. -/
def getIdN (p : Obj) : Option Int :=
  match Obj.get p "id" with
  | some (JValue.num n) => some n
  | _ => none

/-- The numeric ids present in a catalog, in order. -/
def idsOf (products : List Obj) : List Int :=
  products.filterMap getIdN

/-- JS `Number(p.id || 0)` as consumed by `Math.max`: a numeric id is itself
(`n || 0` is `n` for nonzero `n` and `0` for `n = 0`, numerically `n` either
way), a missing / `null` / `false` / empty-string id is falsy and becomes `0`,
`true` coerces to `1`, and a nonempty string goes through `ToNumber`.  `none`
embeds `NaN` (a nonempty string that is not a decimal integer). -/
def idForMax (p : Obj) : Option Int :=
  match Obj.get p "id" with
  | some (JValue.num n) => some n
  | some (JValue.str s) =>
      if s = "" then some 0
      else
        let t := s.trim.data
        match t with
        | '-' :: ds => if ds ≠ [] ∧ ds.all Char.isDigit
                       then some (-(digitsToNat ds : Int)) else none
        | ds => if ds ≠ [] ∧ ds.all Char.isDigit
                then some (digitsToNat ds : Int) else none
  | some (JValue.bool b) => some (if b then 1 else 0)
  | some JValue.null => some 0
  | none => some 0

/-- `products.map(p => p.id || 0)` with `NaN` (`none`) propagated outward,
since a single `NaN` argument makes `Math.max` return `NaN`. -/
def idsForMax : List Obj → Option (List Int)
  | [] => some []
  | p :: rest =>
      match idForMax p, idsForMax rest with
      | some n, some ns => some (n :: ns)
      | _, _ => none

/-- `Math.max(...args)` on a list of numbers (none of them `NaN`). -/
def listMax : List Int → Option Int
  | [] => none
  | n :: rest =>
      match listMax rest with
      | none => some n
      | some m => some (max n m)

/-- The id generation of the create handler:
`products.length > 0 ? Math.max(...products.map(p => p.id || 0)) + 1 : 1`.
`none` is the `NaN` regime (some stored id coerces to `NaN`), which the
integer embedding does not follow further. -/
def newId (products : List Obj) : Option Int :=
  if products.isEmpty then some 1
  else
    match idsForMax products with
    | none => none
    | some ids =>
        match listMax ids with
        | none => none    -- unreachable: products nonempty, so ids nonempty
        | some m => some (m + 1)

/-- Spec-side reference for C3, written from the spec sentence
"`max existing + 1`, or `1` if none": not translated from the source, only
compared against `newId`. -/
def specNewId (ids : List Int) : Int :=
  match listMax ids with
  | none => 1
  | some m => m + 1

/-- The create handler's core:
`{ id: newId, ...req.body, createdAt: tc, updatedAt: tu }`, appended to the
catalog; returns the created product and the catalog that is then saved.
`none` is the unmodelled `NaN`-id regime (see `newId`). -/
def createProduct (products : List Obj) (body : Obj) (tc tu : String) :
    Option (Obj × List Obj) :=
  match newId products with
  | none => none
  | some nid =>
      let product :=
        ((Obj.spread [("id", JValue.num nid)] body).set "createdAt"
            (JValue.str tc)).set "updatedAt" (JValue.str tu)
      some (product, products ++ [product])

/-- The update handler's core: find the index of the first product matching
the path id; if none, `none` (the 404 path, nothing saved); otherwise replace
it in place by `{...products[index], ...req.body, id: parseInt(id),
updatedAt: tu}` and return the updated product and the saved catalog. -/
def updateProduct (products : List Obj) (idStr : String) (body : Obj)
    (tu : String) : Option (Obj × List Obj) :=
  match products.findIdx? (fun p => idMatches p idStr) with
  | none => none
  | some i =>
      match products.get? i, parseIntJS idStr with
      | some old, some nid =>
          let updated :=
            ((Obj.spread old body).set "id" (JValue.num nid)).set "updatedAt"
              (JValue.str tu)
          some (updated, products.set i updated)
      | _, _ => none   -- unreachable: a found index is in range and matched,
                       -- and a match forces parseInt to succeed

/-- The guard `product.image && product.image.startsWith('/uploads/')` of the
delete handler.  A falsy field short-circuits to no attempt; a truthy string
is tested with `startsWith`; a truthy non-string has no `startsWith` method,
so the expression throws (`error`), which the handler's outer catch turns
into a 500. -/
def checkUploadRef : Option JValue → Except Unit Bool
  | none => Except.ok false
  | some JValue.null => Except.ok false
  | some (JValue.bool b) => if b then Except.error () else Except.ok false
  | some (JValue.num n) => if n = 0 then Except.ok false else Except.error ()
  | some (JValue.str s) =>
      if s = "" then Except.ok false else Except.ok (strStartsWith s "/uploads/")

/-- One best-effort `fs.unlink` block of the delete handler: whether an unlink
was attempted, and the log line produced when the attempted unlink fails
(`console.error` inside the inner catch; the failure is swallowed).
`unlinkOk` says whether unlinking a given referenced path succeeds. -/
def unlinkBlock (unlinkOk : String → Bool) (v : Option JValue) (msg : String) :
    Except Unit (Bool × List String) :=
  match checkUploadRef v with
  | Except.error _ => Except.error ()
  | Except.ok false => Except.ok (false, [])
  | Except.ok true =>
      match v with
      | some (JValue.str s) =>
          Except.ok (true, if unlinkOk s then [] else [msg])
      | _ => Except.ok (true, [])   -- unreachable: the guard holds only for strings

/-- Result of the delete handler's core. `typeError` is the thrown
`startsWith`-on-non-string case, caught by the outer catch (a 500). `ok`
carries the saved catalog, whether an image / audio unlink was attempted, and
the error log. -/
inductive DeleteResult where
  | notFound
  | typeError
  | ok (newProducts : List Obj) (aImg aAud : Bool) (log : List String)
  deriving DecidableEq, Repr

/-- The delete handler's core: find the first matching index (404 if none);
best-effort-unlink the `image` and `audioFile` references; splice the record
out; the resulting catalog is saved and a confirmation returned. -/
def deleteProduct (unlinkOk : String → Bool) (products : List Obj)
    (idStr : String) : DeleteResult :=
  match products.findIdx? (fun p => idMatches p idStr) with
  | none => DeleteResult.notFound
  | some i =>
      match products.get? i with
      | none => DeleteResult.notFound   -- unreachable: a found index is in range
      | some product =>
          match unlinkBlock unlinkOk (Obj.get product "image")
              "Error deleting image file:" with
          | Except.error _ => DeleteResult.typeError
          | Except.ok (aImg, log1) =>
              match unlinkBlock unlinkOk (Obj.get product "audioFile")
                  "Error deleting audio file:" with
              | Except.error _ => DeleteResult.typeError
              | Except.ok (aAud, log2) =>
                  DeleteResult.ok (products.eraseIdx i) aImg aAud (log1 ++ log2)

/-- `path.join(dataDir, 'products_' + category + '.json')`, relative to the
server directory. -/
def getProductsFilePath (category : String) : String :=
  "data/products_" ++ category ++ ".json"

/-- Outcome of `fs.readFile` on a catalog file followed by `JSON.parse`:
the file may be absent (`ENOENT`), unreadable (any other I/O error), or
present with contents that either parse as a product array or not.
`content none` covers contents that do not parse as such an array. -/
inductive FileRead where
  | enoent
  | ioError
  | content (parsed : Option (List Obj))
  deriving DecidableEq, Repr

inductive LoadError where
  | ioErr
  | parseErr
  deriving DecidableEq, Repr

/-- `loadProducts`: catch `ENOENT` and return `[]`; rethrow anything else
(an I/O error, or the `JSON.parse` exception on malformed contents). -/
def loadProducts : FileRead → Except LoadError (List Obj)
  | FileRead.enoent => Except.ok []
  | FileRead.ioError => Except.error LoadError.ioErr
  | FileRead.content none => Except.error LoadError.parseErr
  | FileRead.content (some ps) => Except.ok ps

/-- A filesystem, one read outcome per path; `loadByCategory` is
`loadProducts(category)` of the source: read `data/products_<category>.json`. -/
def loadByCategory (fsys : String → FileRead) (category : String) :
    Except LoadError (List Obj) :=
  loadProducts (fsys (getProductsFilePath category))

/-- `GET /api/products/:category`: status and response body; errors thrown by
the load are caught and mapped to 500. -/
def listHandler (fr : FileRead) : Nat × Option (List Obj) :=
  match loadProducts fr with
  | Except.ok ps => (200, some ps)
  | Except.error _ => (500, none)

/-- `GET /api/products/:category/:id`: status and response body. -/
def getHandler (fr : FileRead) (idStr : String) : Nat × Option Obj :=
  match loadProducts fr with
  | Except.error _ => (500, none)
  | Except.ok ps =>
      match ps.find? (fun p => idMatches p idStr) with
      | none => (404, none)
      | some p => (200, some p)

/-- `POST /api/products/:category`: status, catalog written by `saveProducts`
(`none` = no write), and response body. -/
def createHandler (fr : FileRead) (body : Obj) (tc tu : String) :
    Nat × Option (List Obj) × Option Obj :=
  match loadProducts fr with
  | Except.error _ => (500, none, none)
  | Except.ok ps =>
      match createProduct ps body tc tu with
      | none => (500, none, none)   -- NaN-id regime, outside the model
      | some (p, ps2) => (201, some ps2, some p)

/-- `PUT /api/products/:category/:id`: status, catalog written
(`none` = no write), and response body. -/
def updateHandler (fr : FileRead) (idStr : String) (body : Obj) (tu : String) :
    Nat × Option (List Obj) × Option Obj :=
  match loadProducts fr with
  | Except.error _ => (500, none, none)
  | Except.ok ps =>
      match updateProduct ps idStr body tu with
      | none => (404, none, none)
      | some (p, ps2) => (200, some ps2, some p)

/-- `DELETE /api/products/:category/:id`: status and catalog written
(`none` = no write); on success the body is the fixed confirmation message. -/
def deleteHandler (unlinkOk : String → Bool) (fr : FileRead) (idStr : String) :
    Nat × Option (List Obj) :=
  match loadProducts fr with
  | Except.error _ => (500, none)
  | Except.ok ps =>
      match deleteProduct unlinkOk ps idStr with
      | DeleteResult.notFound => (404, none)
      | DeleteResult.typeError => (500, none)
      | DeleteResult.ok ps2 _ _ _ => (200, some ps2)

/-- A multipart upload request as seen by the multer middleware: whether a
file part is present under the fixed field name, its declared MIME type, its
size in bytes, and the generated target filename. -/
structure UploadReq where
  filePresent : Bool
  mimetype : String
  byteSize : Nat
  filename : String
  deriving DecidableEq, Repr

/-- Outcome of an upload route. `noFile` is the handler's own
`400 {error}`; `filterError` / `sizeError` are errors produced by the multer
middleware (`fileFilter` rejection resp. `LIMIT_FILE_SIZE`), which skip the
handler and propagate to Express. -/
inductive UploadOutcome where
  | ok (url filename : String)
  | noFile
  | filterError (msg : String)
  | sizeError
  deriving DecidableEq, Repr

/-- A multer-wrapped upload route: no file part → the handler answers 400;
otherwise `fileFilter` rejects a MIME type not starting with the required
kind, the `fileSize` limit rejects a larger file, and on success the handler
answers with the public url and generated filename. -/
def uploadPipeline (mimeKind errMsg : String) (limit : Nat) (dir : String)
    (r : UploadReq) : UploadOutcome :=
  if r.filePresent = false then UploadOutcome.noFile
  else if strStartsWith r.mimetype mimeKind = false then
    UploadOutcome.filterError errMsg
  else if limit < r.byteSize then UploadOutcome.sizeError
  else UploadOutcome.ok (dir ++ r.filename) r.filename

/-- `POST /api/upload/image`: `imageUpload.single('image')` with a 10 MiB
limit and an `image/` filter. -/
def imageUploadRoute (r : UploadReq) : UploadOutcome :=
  uploadPipeline "image/" "Only image files are allowed!" (10 * 1024 * 1024)
    "/uploads/images/" r

/-- `POST /api/upload/audio`: `audioUpload.single('audio')` with a 50 MiB
limit and an `audio/` filter. -/
def audioUploadRoute (r : UploadReq) : UploadOutcome :=
  uploadPipeline "audio/" "Only audio files are allowed!" (50 * 1024 * 1024)
    "/uploads/audio/" r

/-- HTTP status of each upload outcome.  `server.js` installs no
error-handling middleware, so a middleware error (filter rejection or size
limit) reaches Express's default error handler, which answers with
`err.status || err.statusCode || 500`; neither a plain `Error` from the
filter nor a `MulterError` carries a status, hence 500. -/
def uploadStatus : UploadOutcome → Nat
  | UploadOutcome.ok _ _ => 200
  | UploadOutcome.noFile => 400
  | UploadOutcome.filterError _ => 500
  | UploadOutcome.sizeError => 500

/-- A mutating catalog operation, as issued over HTTP. -/
inductive Op where
  | create (body : Obj) (tc tu : String)
  | update (idStr : String) (body : Obj) (tu : String)
  | del (idStr : String)

/-- Effect of one operation on a category's persisted catalog.  The failure
paths (404, the unmodelled NaN-id regime, the thrown `startsWith` type error)
save nothing, so the catalog is unchanged.  Unlink outcomes do not touch the
catalog, so the delete oracle is irrelevant here. -/
def applyOp (products : List Obj) : Op → List Obj
  | Op.create body tc tu =>
      match createProduct products body tc tu with
      | some (_, ps) => ps
      | none => products
  | Op.update idStr body tu =>
      match updateProduct products idStr body tu with
      | some (_, ps) => ps
      | none => products
  | Op.del idStr =>
      match deleteProduct (fun _ => true) products idStr with
      | DeleteResult.ok ps _ _ _ => ps
      | _ => products

/-- The catalog reached from the empty catalog by a sequence of operations. -/
def applyOps (ops : List Op) : List Obj :=
  ops.foldl applyOp []

/-- A create whose body does not carry an `id` field; updates and deletes are
unrestricted. -/
def goodOp : Op → Prop
  | Op.create body _ _ => "id" ∉ body.map Prod.fst
  | _ => True

/-- The catalog invariant: every product has a numeric id, and those ids are
pairwise distinct. -/
def CatalogInv (products : List Obj) : Prop :=
  (∀ p ∈ products, ∃ n : Int, Obj.get p "id" = some (JValue.num n))
    ∧ (idsOf products).Nodup

/-- The object literal built by the create handler, abbreviated. -/
def createdObj (nid : Int) (body : Obj) (tc tu : String) : Obj :=
  ((Obj.spread [("id", JValue.num nid)] body).set "createdAt"
      (JValue.str tc)).set "updatedAt" (JValue.str tu)

/-! ### Object lemmas -/

theorem Obj.get_set (o : Obj) (k : String) (v : JValue) (k2 : String) :
    Obj.get (Obj.set o k v) k2 = if k2 = k then some v else Obj.get o k2 := by
  induction o with
  | nil =>
      simp only [Obj.set, Obj.get]
      by_cases h : k = k2
      · simp [h]
      · simp [h, Ne.symm h]
  | cons hd tl ih =>
      obtain ⟨k3, v3⟩ := hd
      by_cases h3 : k3 = k
      · subst h3
        simp only [Obj.set, if_pos rfl, Obj.get]
        by_cases h : k3 = k2
        · simp [h]
        · simp [h, Ne.symm h]
      · simp only [Obj.set, if_neg h3, Obj.get]
        by_cases h : k3 = k2
        · subst h
          simp [h3]
        · simp [h, ih]

theorem Obj.set_eq_append (o : Obj) (k : String) (v : JValue)
    (h : k ∉ o.map Prod.fst) : Obj.set o k v = o ++ [(k, v)] := by
  induction o with
  | nil => rfl
  | cons hd tl ih =>
      obtain ⟨k3, v3⟩ := hd
      simp only [List.map_cons, List.mem_cons, not_or] at h
      simp [Obj.set, Ne.symm h.1, ih h.2]

theorem Obj.spread_cons (o : Obj) (k : String) (v : JValue) (b : Obj) :
    Obj.spread o ((k, v) :: b) = Obj.spread (Obj.set o k v) b := rfl

theorem Obj.get_spread_of_not_mem (o b : Obj) (k : String)
    (h : k ∉ b.map Prod.fst) : Obj.get (Obj.spread o b) k = Obj.get o k := by
  induction b generalizing o with
  | nil => rfl
  | cons hd tl ih =>
      obtain ⟨k3, v3⟩ := hd
      simp only [List.map_cons, List.mem_cons, not_or] at h
      rw [Obj.spread_cons, ih _ h.2, Obj.get_set]
      simp [h.1]

theorem Obj.get_spread_mem (o b : Obj) (k : String)
    (hb : (b.map Prod.fst).Nodup) (hk : k ∈ b.map Prod.fst) :
    Obj.get (Obj.spread o b) k = Obj.get b k := by
  induction b generalizing o with
  | nil => cases hk
  | cons hd tl ih =>
      obtain ⟨k3, v3⟩ := hd
      simp only [List.map_cons, List.nodup_cons] at hb
      simp only [List.map_cons, List.mem_cons] at hk
      rw [Obj.spread_cons]
      by_cases h : k = k3
      · subst h
        rw [Obj.get_spread_of_not_mem _ _ _ hb.1, Obj.get_set]
        simp [Obj.get]
      · have hk2 : k ∈ tl.map Prod.fst := hk.resolve_left h
        rw [ih _ hb.2 hk2]
        have h3 : ¬k3 = k := fun hh => h hh.symm
        simp [Obj.get, h3]

theorem Obj.spread_eq_append (o b : Obj)
    (hb : (b.map Prod.fst).Nodup)
    (hdisj : ∀ k ∈ b.map Prod.fst, k ∉ o.map Prod.fst) :
    Obj.spread o b = o ++ b := by
  induction b generalizing o with
  | nil => simp [Obj.spread]
  | cons hd tl ih =>
      obtain ⟨k3, v3⟩ := hd
      simp only [List.map_cons, List.nodup_cons] at hb
      rw [Obj.spread_cons, Obj.set_eq_append _ _ _ (hdisj k3 (by simp))]
      rw [ih _ hb.2 ?hd2]
      · simp
      case hd2 =>
        intro k hk
        simp only [List.map_append, List.map_cons, List.map_nil, List.mem_append,
          List.mem_singleton, not_or]
        exact ⟨hdisj k (by simp [hk]), fun he => hb.1 (he ▸ hk)⟩

/-! ### `Math.max` and id-generation lemmas -/

theorem listMax_cons_some (a : Int) (l : List Int) :
    ∃ m, listMax (a :: l) = some m := by
  simp only [listMax]
  cases listMax l <;> exact ⟨_, rfl⟩

theorem le_listMax : ∀ {l : List Int} {m : Int}, listMax l = some m →
    ∀ n ∈ l, n ≤ m := by
  intro l
  induction l with
  | nil => intro m h n hn; cases hn
  | cons a tl ih =>
      intro m h n hn
      simp only [listMax] at h
      cases htl : listMax tl with
      | none =>
          rw [htl] at h
          injection h with h
          subst h
          cases tl with
          | nil =>
              rcases List.mem_singleton.mp hn with rfl
              exact le_refl n
          | cons b tl2 =>
              obtain ⟨m2, hm2⟩ := listMax_cons_some b tl2
              rw [hm2] at htl
              cases htl
      | some m2 =>
          rw [htl] at h
          injection h with h
          subst h
          rcases List.mem_cons.mp hn with rfl | hmem
          · exact le_max_left _ _
          · exact le_trans (ih htl n hmem) (le_max_right _ _)

theorem mem_idsOf {ps : List Obj} {p : Obj} {n : Int} (hp : p ∈ ps)
    (hn : Obj.get p "id" = some (JValue.num n)) : n ∈ idsOf ps := by
  rw [idsOf, List.mem_filterMap]
  exact ⟨p, hp, by simp [getIdN, hn]⟩

theorem idsForMax_eq (ps : List Obj)
    (h : ∀ p ∈ ps, ∃ n : Int, Obj.get p "id" = some (JValue.num n)) :
    idsForMax ps = some (idsOf ps) := by
  induction ps with
  | nil => rfl
  | cons p tl ih =>
      obtain ⟨n, hn⟩ := h p (by simp)
      have htl := ih (fun q hq => h q (by simp [hq]))
      simp [idsForMax, idForMax, hn, htl, idsOf, getIdN, List.filterMap_cons]

theorem idsOf_cons_of_id {p : Obj} {n : Int} (tl : List Obj)
    (hn : Obj.get p "id" = some (JValue.num n)) :
    idsOf (p :: tl) = n :: idsOf tl := by
  simp [idsOf, List.filterMap_cons, getIdN, hn]

theorem newId_eq_spec (ps : List Obj)
    (h : ∀ p ∈ ps, ∃ n : Int, Obj.get p "id" = some (JValue.num n)) :
    newId ps = some (specNewId (idsOf ps)) := by
  cases ps with
  | nil => rfl
  | cons p tl =>
      have hids := idsForMax_eq (p :: tl) h
      obtain ⟨n, hn⟩ := h p (by simp)
      have hcons : idsOf (p :: tl) = n :: idsOf tl := idsOf_cons_of_id tl hn
      obtain ⟨m, hm⟩ := listMax_cons_some n (idsOf tl)
      simp [newId, hids, hcons, hm, specNewId]

theorem newId_fresh (ps : List Obj)
    (h : ∀ p ∈ ps, ∃ n : Int, Obj.get p "id" = some (JValue.num n))
    {nid : Int} (hnid : newId ps = some nid) :
    ∀ p ∈ ps, ∀ n : Int, Obj.get p "id" = some (JValue.num n) → n < nid := by
  intro p hp n hn
  rw [newId_eq_spec ps h] at hnid
  injection hnid with hnid
  have hmem : n ∈ idsOf ps := mem_idsOf hp hn
  cases ps with
  | nil => cases hp
  | cons q tl =>
      obtain ⟨nq, hq⟩ := h q (by simp)
      have hcons : idsOf (q :: tl) = nq :: idsOf tl := idsOf_cons_of_id tl hq
      obtain ⟨m, hm⟩ := listMax_cons_some nq (idsOf tl)
      rw [hcons] at hmem
      simp only [specNewId, hcons, hm] at hnid
      have := le_listMax hm n hmem
      omega

/-! ### Matching lemmas -/

theorem idMatches_parse {p : Obj} {s : String} (h : idMatches p s = true) :
    ∃ n : Int, Obj.get p "id" = some (JValue.num n) ∧ parseIntJS s = some n := by
  unfold idMatches at h
  cases hg : Obj.get p "id" with
  | none => cases hp : parseIntJS s <;> simp [hg, hp] at h
  | some v =>
      cases v with
      | num n =>
          cases hp : parseIntJS s with
          | none => simp [hg, hp] at h
          | some m =>
              rw [hg, hp] at h
              have hnm : n = m := by simpa using h
              exact ⟨n, rfl, by rw [hnm]⟩
      | str s2 => cases hp : parseIntJS s <;> simp [hg, hp] at h
      | bool b => cases hp : parseIntJS s <;> simp [hg, hp] at h
      | null => cases hp : parseIntJS s <;> simp [hg, hp] at h

theorem idMatches_intro {p : Obj} {s : String} {n : Int}
    (hg : Obj.get p "id" = some (JValue.num n)) (hp : parseIntJS s = some n) :
    idMatches p s = true := by
  simp [idMatches, hg, hp]

theorem idMatches_false_of_ne {p : Obj} {s : String} {n m : Int}
    (hg : Obj.get p "id" = some (JValue.num n)) (hp : parseIntJS s = some m)
    (hne : n ≠ m) : idMatches p s = false := by
  simp [idMatches, hg, hp, hne]

/-! ### Catalog-shape lemmas -/

theorem idsOf_set {ps : List Obj} {i : Nat} {old upd : Obj}
    (hold : ps.get? i = some old) (hid : getIdN upd = getIdN old) :
    idsOf (ps.set i upd) = idsOf ps := by
  induction ps generalizing i with
  | nil => simp at hold
  | cons p tl ih =>
      cases i with
      | zero =>
          have hp : p = old := by simpa using hold
          subst hp
          simp only [List.set]
          cases hg : getIdN p <;>
            simp [idsOf, List.filterMap_cons, hid, hg]
      | succ j =>
          have htl : tl.get? j = some old := by simpa using hold
          have h2 := ih htl
          simp only [List.set]
          cases hg : getIdN p <;>
            simp only [idsOf, List.filterMap_cons, hg, List.cons.injEq,
              true_and] <;>
            exact h2

theorem idsOf_nodup_tail {a : Obj} {tl : List Obj}
    (h : (idsOf (a :: tl)).Nodup) : (idsOf tl).Nodup := by
  cases hg : getIdN a with
  | none =>
      rwa [idsOf, List.filterMap_cons, hg] at h
  | some n =>
      rw [idsOf, List.filterMap_cons, hg] at h
      exact (List.nodup_cons.mp h).2

theorem no_match_of_erase {s : String} :
    ∀ (l : List Obj) (i : Nat) (p : Obj),
      l.get? i = some p → (idsOf l).Nodup → idMatches p s = true →
      ∀ q ∈ l.eraseIdx i, idMatches q s = false := by
  intro l
  induction l with
  | nil => intro i p hp; simp at hp
  | cons a tl ih =>
      intro i p hp hnd hm q hq
      obtain ⟨n, hid, hparse⟩ := idMatches_parse hm
      cases i with
      | zero =>
          have hpa : a = p := by simpa using hp
          subst hpa
          simp only [List.eraseIdx] at hq
          by_contra hq2
          have hq3 : idMatches q s = true := by
            cases hqm : idMatches q s
            · exact absurd hqm hq2
            · rfl
          obtain ⟨n2, hid2, hparse2⟩ := idMatches_parse hq3
          have hnn : n2 = n := by
            rw [hparse] at hparse2
            exact (Option.some.inj hparse2).symm
          subst hnn
          have hcons := idsOf_cons_of_id tl hid
          rw [hcons, List.nodup_cons] at hnd
          exact hnd.1 (mem_idsOf hq hid2)
      | succ j =>
          have htl : tl.get? j = some p := by simpa using hp
          simp only [List.eraseIdx] at hq
          rcases List.mem_cons.mp hq with rfl | hq
          · by_contra hq2
            have hq3 : idMatches q s = true := by
              cases hqm : idMatches q s
              · exact absurd hqm hq2
              · rfl
            obtain ⟨n2, hid2, hparse2⟩ := idMatches_parse hq3
            have hnn : n = n2 := by
              rw [hparse] at hparse2
              exact Option.some.inj hparse2
            subst hnn
            have hcons := idsOf_cons_of_id tl hid2
            rw [hcons, List.nodup_cons] at hnd
            have hpmem : p ∈ tl := List.get?_mem htl
            exact hnd.1 (mem_idsOf hpmem hid)
          · exact ih j p htl (idsOf_nodup_tail hnd) hm q hq

/-! ### The created record -/

theorem createProduct_eq {products : List Obj} {body : Obj} {tc tu : String}
    {nid : Int} (hnid : newId products = some nid) :
    createProduct products body tc tu =
      some (createdObj nid body tc tu,
        products ++ [createdObj nid body tc tu]) := by
  simp [createProduct, hnid, createdObj]

theorem createdObj_get_updatedAt (nid : Int) (body : Obj) (tc tu : String) :
    Obj.get (createdObj nid body tc tu) "updatedAt"
      = some (JValue.str tu) := by
  rw [createdObj, Obj.get_set, if_pos rfl]

theorem createdObj_get_createdAt (nid : Int) (body : Obj) (tc tu : String) :
    Obj.get (createdObj nid body tc tu) "createdAt"
      = some (JValue.str tc) := by
  rw [createdObj, Obj.get_set, if_neg (by decide), Obj.get_set, if_pos rfl]

theorem createdObj_get_id {body : Obj} (hb : "id" ∉ body.map Prod.fst)
    (nid : Int) (tc tu : String) :
    Obj.get (createdObj nid body tc tu) "id" = some (JValue.num nid) := by
  rw [createdObj, Obj.get_set, if_neg (by decide), Obj.get_set,
    if_neg (by decide), Obj.get_spread_of_not_mem _ _ _ hb]
  rfl

theorem createdObj_get_id_of_mem {body : Obj}
    (hb : (body.map Prod.fst).Nodup) (hm : "id" ∈ body.map Prod.fst)
    (nid : Int) (tc tu : String) :
    Obj.get (createdObj nid body tc tu) "id" = Obj.get body "id" := by
  rw [createdObj, Obj.get_set, if_neg (by decide), Obj.get_set,
    if_neg (by decide), Obj.get_spread_mem _ _ _ hb hm]

theorem createdObj_get_body {body : Obj} (hb : (body.map Prod.fst).Nodup)
    {k : String} (hk : k ∈ body.map Prod.fst) (h1 : k ≠ "createdAt")
    (h2 : k ≠ "updatedAt") (nid : Int) (tc tu : String) :
    Obj.get (createdObj nid body tc tu) k = Obj.get body k := by
  rw [createdObj, Obj.get_set, if_neg h2, Obj.get_set, if_neg h1,
    Obj.get_spread_mem _ _ _ hb hk]

theorem createdObj_eq_append {body : Obj} (hb : (body.map Prod.fst).Nodup)
    (hid : "id" ∉ body.map Prod.fst) (hc : "createdAt" ∉ body.map Prod.fst)
    (hu : "updatedAt" ∉ body.map Prod.fst) (nid : Int) (tc tu : String) :
    createdObj nid body tc tu =
      ("id", JValue.num nid) :: body
        ++ [("createdAt", JValue.str tc), ("updatedAt", JValue.str tu)] := by
  have hc2 : "createdAt" ∉ (("id", JValue.num nid) :: body).map Prod.fst := by
    simp only [List.map_cons, List.mem_cons, not_or]
    exact ⟨by decide, hc⟩
  have hu2 : "updatedAt" ∉
      ((("id", JValue.num nid) :: body)
        ++ [("createdAt", JValue.str tc)]).map Prod.fst := by
    simp only [List.map_append, List.map_cons, List.map_nil, List.mem_append,
      List.mem_cons, List.not_mem_nil, or_false, not_or]
    exact ⟨⟨by decide, hu⟩, by decide⟩
  rw [createdObj,
    Obj.spread_eq_append _ _ hb (by
      intro k hk
      simp only [List.map_cons, List.map_nil, List.mem_singleton]
      exact fun he => hid (he ▸ hk)),
    List.singleton_append,
    Obj.set_eq_append _ _ _ hc2,
    Obj.set_eq_append _ _ _ hu2]
  simp

theorem getIdN_eq_some {p : Obj} {n : Int} (h : getIdN p = some n) :
    Obj.get p "id" = some (JValue.num n) := by
  unfold getIdN at h
  cases hg : Obj.get p "id" with
  | none => rw [hg] at h; cases h
  | some v =>
      cases v with
      | num m => rw [hg] at h; simp at h; rw [h]
      | str s => rw [hg] at h; simp at h
      | bool b => rw [hg] at h; simp at h
      | null => rw [hg] at h; simp at h

/-! ### Delete lemmas -/

theorem checkUploadRef_true {v : Option JValue}
    (h : checkUploadRef v = Except.ok true) :
    ∃ s, v = some (JValue.str s) ∧ strStartsWith s "/uploads/" = true := by
  cases v with
  | none => simp [checkUploadRef] at h
  | some w =>
      cases w with
      | num n =>
          by_cases hn : n = 0 <;> simp [checkUploadRef, hn] at h
      | str s =>
          by_cases hs : s = ""
          · simp [checkUploadRef, hs] at h
          · refine ⟨s, rfl, ?_⟩
            simpa [checkUploadRef, hs] using h
      | bool b => cases b <;> simp [checkUploadRef] at h
      | null => simp [checkUploadRef] at h

theorem unlinkBlock_ok (f : String → Bool) {v : Option JValue} (msg : String)
    {b : Bool} (h : checkUploadRef v = Except.ok b) :
    ∃ log, unlinkBlock f v msg = Except.ok (b, log) := by
  cases b with
  | false => exact ⟨[], by simp [unlinkBlock, h]⟩
  | true =>
      obtain ⟨s, rfl, hsw⟩ := checkUploadRef_true h
      exact ⟨if f s then [] else [msg], by simp [unlinkBlock, h]⟩

theorem checkUploadRef_str_true {s : String}
    (hsw : strStartsWith s "/uploads/" = true) :
    checkUploadRef (some (JValue.str s)) = Except.ok true := by
  have hne : ¬s = "" := by
    intro he
    subst he
    exact absurd hsw (by decide)
  show (if s = "" then Except.ok false
    else Except.ok (strStartsWith s "/uploads/")) = Except.ok true
  rw [if_neg hne, hsw]

theorem deleteProduct_ok_iff {f : String → Bool} {ps : List Obj}
    {idStr : String} {i : Nat} {p : Obj} {aImg aAud : Bool}
    (hfind : ps.findIdx? (fun q => idMatches q idStr) = some i)
    (hget : ps.get? i = some p)
    (hImg : checkUploadRef (Obj.get p "image") = Except.ok aImg)
    (hAud : checkUploadRef (Obj.get p "audioFile") = Except.ok aAud) :
    ∃ log, deleteProduct f ps idStr
      = DeleteResult.ok (ps.eraseIdx i) aImg aAud log := by
  obtain ⟨log1, h1⟩ := unlinkBlock_ok f "Error deleting image file:" hImg
  obtain ⟨log2, h2⟩ := unlinkBlock_ok f "Error deleting audio file:" hAud
  refine ⟨log1 ++ log2, ?_⟩
  unfold deleteProduct
  simp only [hfind, hget, h1, h2]

theorem deleteProduct_ok_shape {f : String → Bool} {ps ps2 : List Obj}
    {idStr : String} {aImg aAud : Bool} {log : List String}
    (h : deleteProduct f ps idStr = DeleteResult.ok ps2 aImg aAud log) :
    ∃ i, ps.findIdx? (fun q => idMatches q idStr) = some i
      ∧ ps2 = ps.eraseIdx i := by
  unfold deleteProduct at h
  cases hfind : ps.findIdx? (fun q => idMatches q idStr) with
  | none =>
      simp only [hfind] at h
      exact DeleteResult.noConfusion h
  | some i =>
      simp only [hfind] at h
      refine ⟨i, rfl, ?_⟩
      cases hget : ps.get? i with
      | none =>
          simp only [hget] at h
          exact DeleteResult.noConfusion h
      | some product =>
          simp only [hget] at h
          cases h1 : unlinkBlock f (Obj.get product "image")
              "Error deleting image file:" with
          | error e =>
              simp only [h1] at h
              exact DeleteResult.noConfusion h
          | ok pr1 =>
              obtain ⟨a1, l1⟩ := pr1
              simp only [h1] at h
              cases h2 : unlinkBlock f (Obj.get product "audioFile")
                  "Error deleting audio file:" with
              | error e =>
                  simp only [h2] at h
                  exact DeleteResult.noConfusion h
              | ok pr2 =>
                  obtain ⟨a2, l2⟩ := pr2
                  simp only [h2] at h
                  injection h with hps ha hb hl
                  exact hps.symm

/-! ### Invariant preservation -/

theorem catalogInv_create {ps : List Obj} {body : Obj} {tc tu : String}
    (hinv : CatalogInv ps) (hbody : "id" ∉ body.map Prod.fst) :
    CatalogInv (applyOp ps (Op.create body tc tu)) := by
  obtain ⟨hnum, hnd⟩ := hinv
  have hnid := newId_eq_spec ps hnum
  simp only [applyOp, createProduct_eq hnid]
  have hcid := createdObj_get_id hbody (specNewId (idsOf ps)) tc tu
  constructor
  · intro p hp
    rcases List.mem_append.mp hp with hp | hp
    · exact hnum p hp
    · rcases List.mem_singleton.mp hp with rfl
      exact ⟨specNewId (idsOf ps), hcid⟩
  · rw [idsOf, List.filterMap_append]
    have hsing : List.filterMap getIdN [createdObj (specNewId (idsOf ps)) body tc tu]
        = [specNewId (idsOf ps)] := by
      simp [List.filterMap_cons, getIdN, hcid]
    rw [hsing, List.nodup_append]
    refine ⟨hnd, List.nodup_singleton _, ?_⟩
    intro n hn hn2
    have hn3 : n = specNewId (idsOf ps) := List.mem_singleton.mp hn2
    obtain ⟨q, hq, hgq⟩ := List.mem_filterMap.mp hn
    have hlt := newId_fresh ps hnum hnid q hq n (getIdN_eq_some hgq)
    omega

theorem catalogInv_update {ps : List Obj} {idStr : String} {body : Obj}
    {tu : String} (hinv : CatalogInv ps) :
    CatalogInv (applyOp ps (Op.update idStr body tu)) := by
  obtain ⟨hnum, hnd⟩ := hinv
  simp only [applyOp]
  cases hfind : ps.findIdx? (fun p => idMatches p idStr) with
  | none => simp [updateProduct, hfind]; exact ⟨hnum, hnd⟩
  | some i =>
      obtain ⟨hlt, hmatch, -⟩ := List.findIdx?_eq_some_iff_getElem.mp hfind
      have hget : ps.get? i = some ps[i] := by
        simp [List.get?_eq_getElem?, List.getElem?_eq_getElem hlt]
      obtain ⟨n, hid, hparse⟩ := idMatches_parse hmatch
      simp only [updateProduct, hfind, hget, hparse]
      set upd := ((Obj.spread ps[i] body).set "id" (JValue.num n)).set
        "updatedAt" (JValue.str tu) with hupd
      have hupdid : Obj.get upd "id" = some (JValue.num n) := by
        rw [hupd, Obj.get_set, if_neg (by decide), Obj.get_set, if_pos rfl]
      constructor
      · intro p hp
        rcases List.mem_or_eq_of_mem_set hp with hp | rfl
        · exact hnum p hp
        · exact ⟨n, hupdid⟩
      · rw [idsOf_set hget (by rw [getIdN, getIdN, hupdid, hid])]
        exact hnd

theorem catalogInv_delete {ps : List Obj} {idStr : String}
    (hinv : CatalogInv ps) : CatalogInv (applyOp ps (Op.del idStr)) := by
  obtain ⟨hnum, hnd⟩ := hinv
  simp only [applyOp]
  cases hdel : deleteProduct (fun _ => true) ps idStr with
  | notFound => exact ⟨hnum, hnd⟩
  | typeError => exact ⟨hnum, hnd⟩
  | ok ps2 a b log =>
      obtain ⟨i, -, rfl⟩ := deleteProduct_ok_shape hdel
      have hsub : List.Sublist (idsOf (ps.eraseIdx i)) (idsOf ps) :=
        (List.eraseIdx_sublist ps i).filterMap getIdN
      exact ⟨fun p hp => hnum p ((List.eraseIdx_sublist ps i).subset hp),
        hnd.sublist hsub⟩

theorem catalogInv_applyOp {ps : List Obj} {op : Op} (hinv : CatalogInv ps)
    (hop : goodOp op) : CatalogInv (applyOp ps op) := by
  cases op with
  | create body tc tu => exact catalogInv_create hinv hop
  | update idStr body tu => exact catalogInv_update hinv
  | del idStr => exact catalogInv_delete hinv

theorem catalogInv_foldl : ∀ (ops : List Op) (ps : List Obj),
    CatalogInv ps → (∀ op ∈ ops, goodOp op) →
    CatalogInv (ops.foldl applyOp ps) := by
  intro ops
  induction ops with
  | nil => intro ps hinv _; exact hinv
  | cons op rest ih =>
      intro ps hinv hops
      rw [List.foldl_cons]
      exact ih _ (catalogInv_applyOp hinv (hops op (by simp)))
        (fun o ho => hops o (by simp [ho]))

theorem create_step_ids {ps : List Obj} {body : Obj} (tc tu : String)
    (hnum : ∀ p ∈ ps, ∃ n : Int, Obj.get p "id" = some (JValue.num n))
    (hbody : "id" ∉ body.map Prod.fst) :
    idsOf (applyOp ps (Op.create body tc tu))
        = idsOf ps ++ [specNewId (idsOf ps)]
    ∧ (∀ p ∈ applyOp ps (Op.create body tc tu),
        ∃ n : Int, Obj.get p "id" = some (JValue.num n)) := by
  have hnid := newId_eq_spec ps hnum
  simp only [applyOp, createProduct_eq hnid]
  constructor
  · rw [idsOf, List.filterMap_append]
    have hsing : List.filterMap getIdN
        [createdObj (specNewId (idsOf ps)) body tc tu]
          = [specNewId (idsOf ps)] := by
      simp [List.filterMap_cons, getIdN, createdObj_get_id hbody]
    rw [hsing]
    rfl
  · intro p hp
    rcases List.mem_append.mp hp with hp | hp
    · exact hnum p hp
    · rcases List.mem_singleton.mp hp with rfl
      exact ⟨_, createdObj_get_id hbody _ tc tu⟩

theorem idMatches_none {p : Obj} {s : String} (hs : parseIntJS s = none) :
    idMatches p s = false := by
  cases hg : Obj.get p "id" with
  | none => simp [idMatches, hg, hs]
  | some v => cases v <;> simp [idMatches, hg, hs]

/-! ## The claims -/

/-- **C1** (counterexample): against an empty catalog the computed id is 1,
yet a request body carrying `id: 7` produces a created product whose `id` is
7: the caller-supplied `id` overrides the service-computed one, so the
service-assigned fields do not all win on key conflicts. -/
theorem create_merge_cex :
    newId [] = some 1
    ∧ (createProduct [] [("id", JValue.num 7)] "t1" "t2").map
        (fun r => Obj.get r.1 "id") = some (some (JValue.num 7))
    ∧ some (some (JValue.num 7)) ≠ some (some (JValue.num 1)) := by
  refine ⟨rfl, by decide, by decide⟩

/-- **C1** (amended): for every category and request body, create computes
the new id as `max existing + 1` (1 when the catalog is empty), merges the
caller-supplied fields over `{id: newId}` and then assigns `createdAt` and
`updatedAt`, so the service-assigned timestamps win on any key conflict but a
caller-supplied `id` overrides the computed id (absent a caller `id`, the
created product carries the computed id); the result is appended to the
catalog, saved, and returned with status 201. -/
theorem create_merge_amended (products : List Obj) (body : Obj)
    (tc tu : String) (nid : Int)
    (hb : (body.map Prod.fst).Nodup)
    (hnid : newId products = some nid) :
    createProduct products body tc tu
        = some (createdObj nid body tc tu,
            products ++ [createdObj nid body tc tu])
    ∧ Obj.get (createdObj nid body tc tu) "createdAt" = some (JValue.str tc)
    ∧ Obj.get (createdObj nid body tc tu) "updatedAt" = some (JValue.str tu)
    ∧ ("id" ∉ body.map Prod.fst →
        Obj.get (createdObj nid body tc tu) "id" = some (JValue.num nid))
    ∧ ("id" ∈ body.map Prod.fst →
        Obj.get (createdObj nid body tc tu) "id" = Obj.get body "id")
    ∧ (∀ k ∈ body.map Prod.fst, k ≠ "createdAt" → k ≠ "updatedAt" →
        Obj.get (createdObj nid body tc tu) k = Obj.get body k)
    ∧ createHandler (FileRead.content (some products)) body tc tu
        = (201, some (products ++ [createdObj nid body tc tu]),
            some (createdObj nid body tc tu)) := by
  refine ⟨createProduct_eq hnid, createdObj_get_createdAt nid body tc tu,
    createdObj_get_updatedAt nid body tc tu,
    fun h => createdObj_get_id h nid tc tu,
    fun h => createdObj_get_id_of_mem hb h nid tc tu,
    fun k hk h1 h2 => createdObj_get_body hb hk h1 h2 nid tc tu, ?_⟩
  simp [createHandler, loadProducts, createProduct_eq hnid]

/-- Witness for C1 (amended), at an empty catalog and the body
`{name: "Latte", id: 9}`. -/
theorem create_merge_amended_witness :
    createProduct [] [("name", JValue.str "Latte"), ("id", JValue.num 9)]
        "t1" "t2"
      = some (createdObj 1 [("name", JValue.str "Latte"), ("id", JValue.num 9)]
            "t1" "t2",
          [createdObj 1 [("name", JValue.str "Latte"), ("id", JValue.num 9)]
            "t1" "t2"])
    ∧ Obj.get (createdObj 1 [("name", JValue.str "Latte"),
        ("id", JValue.num 9)] "t1" "t2") "id"
      = Obj.get [("name", JValue.str "Latte"), ("id", JValue.num 9)] "id" := by
  obtain ⟨h1, -, -, -, h5, -⟩ := create_merge_amended []
    [("name", JValue.str "Latte"), ("id", JValue.num 9)] "t1" "t2" 1
    (by decide) (by decide)
  exact ⟨h1, h5 (by decide)⟩

/-- **C2** (counterexample): the catalog reached from the empty catalog by
`create {}` followed by `create {id: 1}` carries the ids `[1, 1]`, which are
not pairwise distinct: id uniqueness is not preserved by every create. -/
theorem ids_unique_cex :
    idsOf (applyOps [Op.create [] "t1" "t2",
        Op.create [("id", JValue.num 1)] "t3" "t4"]) = [1, 1]
    ∧ ¬ (idsOf (applyOps [Op.create [] "t1" "t2",
        Op.create [("id", JValue.num 1)] "t3" "t4"])).Nodup := by
  exact ⟨by decide, by decide⟩

/-- **C2** (amended): for every catalog reachable by creates, updates and
deletes from the empty catalog in which no create body carries an `id` key,
every product has a numeric id and the ids are pairwise distinct; and every
single operation of that shape preserves this invariant. -/
theorem ids_unique_amended :
    (∀ ops : List Op, (∀ op ∈ ops, goodOp op) → CatalogInv (applyOps ops))
    ∧ (∀ (ps : List Obj) (op : Op), CatalogInv ps → goodOp op →
        CatalogInv (applyOp ps op)) :=
  ⟨fun ops h => catalogInv_foldl ops []
      ⟨fun p hp => absurd hp (List.not_mem_nil p), List.nodup_nil⟩ h,
   fun _ _ hinv hop => catalogInv_applyOp hinv hop⟩

/-- Witness for C2 (amended), on a one-create sequence. -/
theorem ids_unique_amended_witness :
    CatalogInv (applyOps [Op.create [("name", JValue.str "Latte")] "t1" "t2"]) :=
  ids_unique_amended.1 _ (by
    intro op hop
    rcases List.mem_singleton.mp hop with rfl
    simp [goodOp])

/-- **C3**: the id assigned by create equals `max existing + 1` (via the spec
reference `specNewId`, which is 1 on an empty catalog), and three creates in
sequence from an empty catalog, with no deletions and no `id` field in any
body, yield ids 1, 2, 3. -/
theorem id_assignment (b1 b2 b3 : Obj)
    (h1 : "id" ∉ b1.map Prod.fst) (h2 : "id" ∉ b2.map Prod.fst)
    (h3 : "id" ∉ b3.map Prod.fst) (t1 t2 t3 t4 t5 t6 : String) :
    newId [] = some 1
    ∧ (∀ products : List Obj,
        (∀ p ∈ products, ∃ n : Int, Obj.get p "id" = some (JValue.num n)) →
        newId products = some (specNewId (idsOf products)))
    ∧ idsOf (applyOps [Op.create b1 t1 t2, Op.create b2 t3 t4,
        Op.create b3 t5 t6]) = [1, 2, 3] := by
  refine ⟨rfl, fun products h => newId_eq_spec products h, ?_⟩
  have hnum0 : ∀ p ∈ ([] : List Obj), ∃ n : Int,
      Obj.get p "id" = some (JValue.num n) :=
    fun p hp => absurd hp (List.not_mem_nil p)
  obtain ⟨hi1, hn1⟩ := create_step_ids t1 t2 hnum0 h1
  obtain ⟨hi2, hn2⟩ := create_step_ids t3 t4 hn1 h2
  obtain ⟨hi3, -⟩ := create_step_ids t5 t6 hn2 h3
  show idsOf (applyOp (applyOp (applyOp [] (Op.create b1 t1 t2))
    (Op.create b2 t3 t4)) (Op.create b3 t5 t6)) = [1, 2, 3]
  rw [hi3, hi2, hi1]
  decide

/-- Witness for C3, at three concrete bodies. -/
theorem id_assignment_witness :
    idsOf (applyOps [Op.create [("name", JValue.str "a")] "t1" "t2",
        Op.create [("name", JValue.str "b")] "t3" "t4",
        Op.create [] "t5" "t6"]) = [1, 2, 3] :=
  (id_assignment [("name", JValue.str "a")] [("name", JValue.str "b")] []
    (by decide) (by decide) (by decide) "t1" "t2" "t3" "t4" "t5" "t6").2.2

/-- **C4**: update on an existing id replaces the record in place by the old
record merged with the caller body (caller fields win), with `id` forced back
to the parsed path parameter and `updatedAt` refreshed; fields omitted from
the body keep their previous values, every other record and the catalog
length and order are unchanged, and the handler answers 200 with the updated
product, saving the updated catalog. -/
theorem update_merge (products : List Obj) (idStr : String) (body : Obj)
    (tu : String) (i : Nat) (old : Obj) (nid : Int)
    (hfind : products.findIdx? (fun p => idMatches p idStr) = some i)
    (hold : products.get? i = some old)
    (hparse : parseIntJS idStr = some nid)
    (hb : (body.map Prod.fst).Nodup) :
    ∃ upd,
      updateProduct products idStr body tu = some (upd, products.set i upd)
      ∧ upd = ((Obj.spread old body).set "id" (JValue.num nid)).set
          "updatedAt" (JValue.str tu)
      ∧ Obj.get upd "id" = some (JValue.num nid)
      ∧ Obj.get upd "updatedAt" = some (JValue.str tu)
      ∧ (∀ k ∈ body.map Prod.fst, k ≠ "id" → k ≠ "updatedAt" →
          Obj.get upd k = Obj.get body k)
      ∧ (∀ k, k ∉ body.map Prod.fst → k ≠ "id" → k ≠ "updatedAt" →
          Obj.get upd k = Obj.get old k)
      ∧ (products.set i upd).length = products.length
      ∧ (products.set i upd).get? i = some upd
      ∧ (∀ j, j ≠ i → (products.set i upd).get? j = products.get? j)
      ∧ updateHandler (FileRead.content (some products)) idStr body tu
          = (200, some (products.set i upd), some upd) := by
  have hlt : i < products.length := by
    by_contra hge
    rw [List.get?_eq_none.mpr (by omega)] at hold
    cases hold
  refine ⟨((Obj.spread old body).set "id" (JValue.num nid)).set
    "updatedAt" (JValue.str tu), ?_, rfl, ?_, ?_, ?_, ?_, ?_, ?_, ?_, ?_⟩
  · unfold updateProduct
    simp only [hfind, hold, hparse]
  · rw [Obj.get_set, if_neg (by decide), Obj.get_set, if_pos rfl]
  · rw [Obj.get_set, if_pos rfl]
  · intro k hk hk1 hk2
    rw [Obj.get_set, if_neg hk2, Obj.get_set, if_neg hk1,
      Obj.get_spread_mem _ _ _ hb hk]
  · intro k hk hk1 hk2
    rw [Obj.get_set, if_neg hk2, Obj.get_set, if_neg hk1,
      Obj.get_spread_of_not_mem _ _ _ hk]
  · exact List.length_set products i _
  · simp [List.get?_eq_getElem?, List.getElem?_set_self hlt]
  · intro j hj
    simp only [List.get?_eq_getElem?]
    exact List.getElem?_set_ne (fun he => hj he.symm)
  · have hupd : updateProduct products idStr body tu
        = some (((Obj.spread old body).set "id" (JValue.num nid)).set
            "updatedAt" (JValue.str tu),
          products.set i (((Obj.spread old body).set "id"
            (JValue.num nid)).set "updatedAt" (JValue.str tu))) := by
      unfold updateProduct
      simp only [hfind, hold, hparse]
    simp [updateHandler, loadProducts, hupd]

/-- Witness for C4, updating the price of product 1 in a one-product
catalog. -/
theorem update_merge_witness :
    ∃ upd, updateProduct [[("id", JValue.num 1), ("name", JValue.str "Latte")]]
        "1" [("price", JValue.num 5)] "t9" = some (upd, [upd])
      ∧ Obj.get upd "name" = some (JValue.str "Latte")
      ∧ Obj.get upd "price" = some (JValue.num 5) := by
  obtain ⟨upd, heq, -, -, -, hwin, hkeep, -⟩ := update_merge
    [[("id", JValue.num 1), ("name", JValue.str "Latte")]] "1"
    [("price", JValue.num 5)] "t9" 0
    [("id", JValue.num 1), ("name", JValue.str "Latte")] 1
    (by decide) (by decide) (by decide) (by decide)
  exact ⟨upd, heq,
    hkeep "name" (by decide) (by decide) (by decide),
    hwin "price" (by decide) (by decide) (by decide)⟩

/-- **C5**: update of an id with no matching product answers 404 and performs
no save (the written-catalog component is `none`), and the core operation
reports not-found. -/
theorem update_notfound (fr : FileRead) (ps : List Obj) (idStr : String)
    (body : Obj) (tu : String)
    (hload : loadProducts fr = Except.ok ps)
    (hnone : ∀ p ∈ ps, idMatches p idStr = false) :
    updateHandler fr idStr body tu = (404, none, none)
    ∧ updateProduct ps idStr body tu = none := by
  have hfind : ps.findIdx? (fun p => idMatches p idStr) = none :=
    List.findIdx?_eq_none_iff.mpr hnone
  refine ⟨?_, ?_⟩
  · simp [updateHandler, hload, updateProduct, hfind]
  · simp [updateProduct, hfind]

/-- Witness for C5, updating id 2 in a catalog holding only id 1. -/
theorem update_notfound_witness :
    updateHandler (FileRead.content (some [[("id", JValue.num 1)]])) "2"
        [("price", JValue.num 5)] "t9" = (404, none, none) :=
  (update_notfound (FileRead.content (some [[("id", JValue.num 1)]]))
    [[("id", JValue.num 1)]] "2" [("price", JValue.num 5)] "t9"
    (by rfl) (by decide)).1

/-- **C6**: deleting an existing id (in a catalog with pairwise-distinct
numeric ids) removes exactly that record from the saved catalog, after which
no record matches the id, so a get answers 404; an unlink of the referenced
file is attempted whenever `image` / `audioFile` is a string starting with
`/uploads/`; and the response is 200 with the shrunk catalog saved for every
unlink outcome — a failed unlink never fails the request. -/
theorem delete_removes (products : List Obj) (idStr : String) (i : Nat)
    (p : Obj) (aImg aAud : Bool)
    (hfind : products.findIdx? (fun q => idMatches q idStr) = some i)
    (hget : products.get? i = some p)
    (hnd : (idsOf products).Nodup)
    (hImg : checkUploadRef (Obj.get p "image") = Except.ok aImg)
    (hAud : checkUploadRef (Obj.get p "audioFile") = Except.ok aAud) :
    (∀ unlinkOk : String → Bool, ∃ log,
        deleteProduct unlinkOk products idStr
          = DeleteResult.ok (products.eraseIdx i) aImg aAud log)
    ∧ (∀ q ∈ products.eraseIdx i, idMatches q idStr = false)
    ∧ getHandler (FileRead.content (some (products.eraseIdx i))) idStr
        = (404, none)
    ∧ (∀ unlinkOk : String → Bool,
        deleteHandler unlinkOk (FileRead.content (some products)) idStr
          = (200, some (products.eraseIdx i)))
    ∧ (∀ s, Obj.get p "image" = some (JValue.str s) →
        strStartsWith s "/uploads/" = true → aImg = true)
    ∧ (∀ s, Obj.get p "audioFile" = some (JValue.str s) →
        strStartsWith s "/uploads/" = true → aAud = true) := by
  have hmatch : idMatches p idStr = true := by
    obtain ⟨hlt, hm, -⟩ := List.findIdx?_eq_some_iff_getElem.mp hfind
    have hip : products[i] = p := by
      have hg2 := hget
      simp only [List.get?_eq_getElem?, List.getElem?_eq_getElem hlt] at hg2
      exact Option.some.inj hg2
    rwa [hip] at hm
  have hnomatch := no_match_of_erase products i p hget hnd hmatch
  refine ⟨fun f => deleteProduct_ok_iff hfind hget hImg hAud,
    hnomatch, ?_, ?_, ?_, ?_⟩
  · have hfq : (products.eraseIdx i).find? (fun q => idMatches q idStr)
        = none :=
      List.find?_eq_none.mpr (fun q hq => by simp [hnomatch q hq])
    simp [getHandler, loadProducts, hfq]
  · intro f
    obtain ⟨log, hdel⟩ := deleteProduct_ok_iff (f := f) hfind hget hImg hAud
    simp [deleteHandler, loadProducts, hdel]
  · intro s hs hsw
    rw [hs, checkUploadRef_str_true hsw] at hImg
    exact (Except.ok.inj hImg).symm
  · intro s hs hsw
    rw [hs, checkUploadRef_str_true hsw] at hAud
    exact (Except.ok.inj hAud).symm

/-- Witness for C6, deleting the only product, whose `image` references an
uploaded file, under an unlink oracle that always fails. -/
theorem delete_removes_witness :
    deleteHandler (fun _ => false)
        (FileRead.content (some [[("id", JValue.num 1),
          ("image", JValue.str "/uploads/images/a.png")]])) "1"
      = (200, some [])
    ∧ getHandler (FileRead.content (some ([] : List Obj))) "1"
      = (404, none) := by
  obtain ⟨-, -, hg404, hdel, -, -⟩ := delete_removes
    [[("id", JValue.num 1), ("image", JValue.str "/uploads/images/a.png")]]
    "1" 0 [("id", JValue.num 1), ("image", JValue.str "/uploads/images/a.png")]
    true false (by decide) (by decide) (by decide) (by rfl) (by rfl)
  exact ⟨hdel (fun _ => false), hg404⟩

/-- **C7**: the per-category load reads `data/products_<category>.json`; а
missing file yields the empty catalog and the list handler answers 200 with
an empty array, while an I/O failure or malformed catalog JSON propagates and
the list handler answers 500. -/
theorem load_missing_file (fsys : String → FileRead) (category : String) :
    getProductsFilePath category = "data/products_" ++ category ++ ".json"
    ∧ (fsys (getProductsFilePath category) = FileRead.enoent →
        loadByCategory fsys category = Except.ok []
        ∧ listHandler (fsys (getProductsFilePath category)) = (200, some []))
    ∧ (fsys (getProductsFilePath category) = FileRead.ioError →
        loadByCategory fsys category = Except.error LoadError.ioErr
        ∧ listHandler (fsys (getProductsFilePath category)) = (500, none))
    ∧ (fsys (getProductsFilePath category) = FileRead.content none →
        loadByCategory fsys category = Except.error LoadError.parseErr
        ∧ listHandler (fsys (getProductsFilePath category)) = (500, none)) := by
  refine ⟨rfl, ?_, ?_, ?_⟩ <;> intro h <;>
    simp [loadByCategory, loadProducts, listHandler, h]

/-- Witness for C7, on a filesystem with no files at all. -/
theorem load_missing_file_witness :
    loadByCategory (fun _ => FileRead.enoent) "coffee" = Except.ok []
    ∧ listHandler ((fun _ => FileRead.enoent)
        (getProductsFilePath "coffee")) = (200, some []) :=
  (load_missing_file (fun _ => FileRead.enoent) "coffee").2.1 rfl

/-- **C8** (counterexample): a present file of MIME type `text/plain` sent to
the image endpoint is rejected by the multer file filter, and — with no
error-handling middleware installed in `server.js` — surfaces through
Express's default error handler as HTTP 500, not 400; likewise an oversize
audio file surfaces as 500, not 413. -/
theorem upload_status_cex :
    imageUploadRoute ⟨true, "text/plain", 5, "a.txt"⟩
        = UploadOutcome.filterError "Only image files are allowed!"
    ∧ uploadStatus (imageUploadRoute ⟨true, "text/plain", 5, "a.txt"⟩) = 500
    ∧ (500 : Nat) ≠ 400
    ∧ audioUploadRoute ⟨true, "audio/mpeg", 52428801, "b.mp3"⟩
        = UploadOutcome.sizeError
    ∧ uploadStatus (audioUploadRoute ⟨true, "audio/mpeg", 52428801, "b.mp3"⟩)
        = 500
    ∧ (500 : Nat) ≠ 413 := by
  refine ⟨by decide, by decide, by decide, by decide, by decide, by decide⟩

/-- **C8** (amended): for each upload endpoint (image with a 10 MiB ceiling,
audio with 50 MiB): a request with no file under the fixed field name yields
the handler's own 400; a file whose MIME type does not start with the
required kind is rejected by the file filter, and a file above the ceiling by
the size limit, both surfacing as HTTP 500 through Express's default error
handler (no error middleware is installed); on success the response is 200
with the public url and generated filename. -/
theorem upload_pipeline_amended :
    (∀ r : UploadReq, r.filePresent = false →
        imageUploadRoute r = UploadOutcome.noFile
        ∧ audioUploadRoute r = UploadOutcome.noFile
        ∧ uploadStatus UploadOutcome.noFile = 400)
    ∧ (∀ r : UploadReq, r.filePresent = true →
        strStartsWith r.mimetype "image/" = false →
        imageUploadRoute r = UploadOutcome.filterError
            "Only image files are allowed!"
        ∧ uploadStatus (imageUploadRoute r) = 500)
    ∧ (∀ r : UploadReq, r.filePresent = true →
        strStartsWith r.mimetype "image/" = true →
        10 * 1024 * 1024 < r.byteSize →
        imageUploadRoute r = UploadOutcome.sizeError
        ∧ uploadStatus (imageUploadRoute r) = 500)
    ∧ (∀ r : UploadReq, r.filePresent = true →
        strStartsWith r.mimetype "image/" = true →
        r.byteSize ≤ 10 * 1024 * 1024 →
        imageUploadRoute r
            = UploadOutcome.ok ("/uploads/images/" ++ r.filename) r.filename
        ∧ uploadStatus (imageUploadRoute r) = 200)
    ∧ (∀ r : UploadReq, r.filePresent = true →
        strStartsWith r.mimetype "audio/" = false →
        audioUploadRoute r = UploadOutcome.filterError
            "Only audio files are allowed!"
        ∧ uploadStatus (audioUploadRoute r) = 500)
    ∧ (∀ r : UploadReq, r.filePresent = true →
        strStartsWith r.mimetype "audio/" = true →
        50 * 1024 * 1024 < r.byteSize →
        audioUploadRoute r = UploadOutcome.sizeError
        ∧ uploadStatus (audioUploadRoute r) = 500)
    ∧ (∀ r : UploadReq, r.filePresent = true →
        strStartsWith r.mimetype "audio/" = true →
        r.byteSize ≤ 50 * 1024 * 1024 →
        audioUploadRoute r
            = UploadOutcome.ok ("/uploads/audio/" ++ r.filename) r.filename
        ∧ uploadStatus (audioUploadRoute r) = 200) := by
  refine ⟨?_, ?_, ?_, ?_, ?_, ?_, ?_⟩
  · intro r h1
    simp [imageUploadRoute, audioUploadRoute, uploadPipeline, uploadStatus, h1]
  · intro r h1 h2
    simp [imageUploadRoute, uploadPipeline, uploadStatus, h1, h2]
  · intro r h1 h2 h3
    simp [imageUploadRoute, uploadPipeline, uploadStatus, h1, h2, h3]
  · intro r h1 h2 h3
    have h4 : ¬(10 * 1024 * 1024 : Nat) < r.byteSize := by omega
    simp [imageUploadRoute, uploadPipeline, uploadStatus, h1, h2, h3, h4]
  · intro r h1 h2
    simp [audioUploadRoute, uploadPipeline, uploadStatus, h1, h2]
  · intro r h1 h2 h3
    simp [audioUploadRoute, uploadPipeline, uploadStatus, h1, h2, h3]
  · intro r h1 h2 h3
    have h4 : ¬(50 * 1024 * 1024 : Nat) < r.byteSize := by omega
    simp [audioUploadRoute, uploadPipeline, uploadStatus, h1, h2, h3, h4]

/-- Witness for C8 (amended), at a missing file, a small valid image and an
oversize audio file. -/
theorem upload_pipeline_amended_witness :
    imageUploadRoute ⟨false, "image/png", 0, "x"⟩ = UploadOutcome.noFile
    ∧ imageUploadRoute ⟨true, "image/png", 1000, "x.png"⟩
        = UploadOutcome.ok "/uploads/images/x.png" "x.png"
    ∧ audioUploadRoute ⟨true, "audio/mpeg", 52428801, "y.mp3"⟩
        = UploadOutcome.sizeError := by
  refine ⟨(upload_pipeline_amended.1 ⟨false, "image/png", 0, "x"⟩ rfl).1,
    (upload_pipeline_amended.2.2.2.1 ⟨true, "image/png", 1000, "x.png"⟩
      rfl (by decide) (by decide)).1,
    (upload_pipeline_amended.2.2.2.2.2.1 ⟨true, "audio/mpeg", 52428801, "y.mp3"⟩
      rfl (by decide) (by decide)).1⟩

/-- **C9**: creating from caller fields that avoid the reserved keys and then
getting the assigned id returns exactly the caller fields extended with the
assigned `id`, `createdAt` and `updatedAt` (literally appended around the
body), with status 200. -/
theorem create_get_roundtrip (products : List Obj) (body : Obj)
    (tc tu : String) (nid : Int)
    (hnum : ∀ p ∈ products, ∃ n : Int, Obj.get p "id" = some (JValue.num n))
    (hnid : newId products = some nid)
    (hb : (body.map Prod.fst).Nodup)
    (hid : "id" ∉ body.map Prod.fst)
    (hc : "createdAt" ∉ body.map Prod.fst)
    (hu : "updatedAt" ∉ body.map Prod.fst) :
    createProduct products body tc tu
        = some (createdObj nid body tc tu,
            products ++ [createdObj nid body tc tu])
    ∧ createdObj nid body tc tu
        = ("id", JValue.num nid) :: body
            ++ [("createdAt", JValue.str tc), ("updatedAt", JValue.str tu)]
    ∧ (∀ s, parseIntJS s = some nid →
        getHandler (FileRead.content
            (some (products ++ [createdObj nid body tc tu]))) s
          = (200, some (createdObj nid body tc tu))) := by
  refine ⟨createProduct_eq hnid, createdObj_eq_append hb hid hc hu nid tc tu,
    ?_⟩
  intro s hs
  have hfresh : products.find? (fun q => idMatches q s) = none := by
    apply List.find?_eq_none.mpr
    intro q hq
    obtain ⟨n, hn⟩ := hnum q hq
    have hlt := newId_fresh products hnum hnid q hq n hn
    simp [idMatches_false_of_ne hn hs (by omega)]
  have hcreated : idMatches (createdObj nid body tc tu) s = true :=
    idMatches_intro (createdObj_get_id hid nid tc tu) hs
  simp [getHandler, loadProducts, List.find?_append, hfresh, hcreated]

/-- Witness for C9, creating `{name: "Latte"}` in an empty catalog and
getting id 1. -/
theorem create_get_roundtrip_witness :
    getHandler (FileRead.content (some
        ([] ++ [createdObj 1 [("name", JValue.str "Latte")] "t1" "t2"]))) "1"
      = (200, some (createdObj 1 [("name", JValue.str "Latte")] "t1" "t2"))
    ∧ createdObj 1 [("name", JValue.str "Latte")] "t1" "t2"
      = ("id", JValue.num 1) :: [("name", JValue.str "Latte")]
          ++ [("createdAt", JValue.str "t1"), ("updatedAt", JValue.str "t2")] := by
  obtain ⟨-, happ, hget⟩ := create_get_roundtrip [] [("name", JValue.str "Latte")]
    "t1" "t2" 1 (fun p hp => absurd hp (List.not_mem_nil p)) (by decide)
    (by decide) (by decide) (by decide) (by decide)
  exact ⟨hget "1" (by decide), happ⟩

/-- **C10** (counterexample): the path id `"12abc"` is not purely numeric,
yet `parseInt` reads its numeric prefix 12, so a product with id 12 does
match: the get handler answers 200 with the product and the update handler
does not answer 404. -/
theorem id_parse_cex :
    parseIntJS "12abc" = some 12
    ∧ getHandler (FileRead.content (some [[("id", JValue.num 12)]])) "12abc"
        = (200, some [("id", JValue.num 12)])
    ∧ updateHandler (FileRead.content (some [[("id", JValue.num 12)]]))
        "12abc" [] "t" ≠ (404, none, none) := by
  refine ⟨by decide, by decide, by decide⟩

/-- **C10** (amended): get, update and delete parse the id path parameter
with `parseInt` and compare it against stored ids under strict equality; a
string `parseInt` cannot parse (`NaN`, e.g. `"abc"` or `"0x"`) never matches
any product, so those handlers answer 404 rather than a parse error; but a
string `parseInt` does parse — such as a decimal digit run followed by
letters (`"12abc"` parses to 12), or a `0x`-marked hexadecimal form
(`"0x10"` parses to 16, `"0X1A"` to 26) — matches exactly the products whose
stored id equals the parsed integer, so ids that are not purely numeric can
match. -/
theorem id_parse_amended :
    (∀ s : String, parseIntJS s = none →
      ∀ (ps : List Obj) (body : Obj) (tu : String) (f : String → Bool),
        (∀ p ∈ ps, idMatches p s = false)
        ∧ getHandler (FileRead.content (some ps)) s = (404, none)
        ∧ updateHandler (FileRead.content (some ps)) s body tu
            = (404, none, none)
        ∧ deleteHandler f (FileRead.content (some ps)) s = (404, none))
    ∧ (∀ (s : String) (m : Int) (p : Obj), parseIntJS s = some m →
        (idMatches p s = true ↔ Obj.get p "id" = some (JValue.num m)))
    ∧ parseIntJS "12abc" = some 12
    ∧ parseIntJS "0x10" = some 16
    ∧ parseIntJS "0X1A" = some 26
    ∧ parseIntJS "0x" = none
    ∧ parseIntJS "abc" = none := by
  refine ⟨?_, ?_, by decide, by decide, by decide, by decide, by decide⟩
  · intro s hs ps body tu f
    have hall : ∀ p ∈ ps, idMatches p s = false := fun p _ => idMatches_none hs
    have hfind : ps.findIdx? (fun p => idMatches p s) = none :=
      List.findIdx?_eq_none_iff.mpr hall
    have hfq : ps.find? (fun p => idMatches p s) = none :=
      List.find?_eq_none.mpr (fun q hq => by simp [hall q hq])
    refine ⟨hall, ?_, ?_, ?_⟩
    · simp [getHandler, loadProducts, hfq]
    · simp [updateHandler, loadProducts, updateProduct, hfind]
    · simp [deleteHandler, loadProducts, deleteProduct, hfind]
  · intro s m p hs
    constructor
    · intro hm
      obtain ⟨n, hn, hp⟩ := idMatches_parse hm
      rw [hs] at hp
      rw [hn, Option.some.inj hp]
    · intro hg
      exact idMatches_intro hg hs

/-- Witness for C10 (amended), at the unparseable id `"abc"` and the
numeric-prefix id `"12abc"`. -/
theorem id_parse_amended_witness :
    getHandler (FileRead.content (some [[("id", JValue.num 1)]])) "abc"
        = (404, none)
    ∧ (idMatches [("id", JValue.num 12)] "12abc" = true ↔
        Obj.get [("id", JValue.num 12)] "id" = some (JValue.num 12)) := by
  refine ⟨(id_parse_amended.1 "abc" (by decide) [[("id", JValue.num 1)]] []
      "t" (fun _ => true)).2.1,
    id_parse_amended.2.1 "12abc" 12 [("id", JValue.num 12)] (by decide)⟩

end TutuStore
